import Mathlib

/-!
Verification of the adaptive slice-backed containers of godatastructures:
the compaction and reallocation policies (internal/slices/algorithms),
the adaptive FIFO queue (internal/queues/structures/slice_queue.go) and
the adaptive LIFO stack (SliceStack).

Go slices are modelled as a list of elements together with an allocated
capacity; Go `int` values that may be negative (policy parameters) are
modelled as `Int`, cursors that are always non-negative as `Nat`.
Go integer division only occurs on non-negative operands here, where it
agrees with `Nat` division.  A Go panic is modelled as `none`; a returned
Go `error` as `Except.error` with the source's message string.
-/

deriving instance DecidableEq for Except

namespace GoDS

/-- Model of a Go slice: its elements (the `len` window) and its allocated
capacity.  A real Go slice always satisfies `elems.length ≤ cap`. -/
structure GoSlice (α : Type) where
  elems : List α
  cap : Nat
  deriving DecidableEq

/-- Capacity chosen by Go's `append` when the buffer is full.  The exact
growth factor is runtime-defined (delegated to the host language per the
design notes); none of the verified properties depend on it beyond
`growCap c n ≥ n`, which every Go runtime guarantees. -/
def growCap (c n : Nat) : Nat := max (2 * c) n

/-- Go `append(s, v)`: reuse spare capacity when available, otherwise grow. -/
def goAppend {α : Type} (s : GoSlice α) (v : α) : GoSlice α :=
  if s.elems.length < s.cap then ⟨s.elems ++ [v], s.cap⟩
  else ⟨s.elems ++ [v], growCap s.cap (s.elems.length + 1)⟩

/-- SliceCompactionParams from slice_compaction.go. -/
structure SliceCompactionParams where
  UsedStart : Int
  MinSize : Int
  WastePercent : Int
  deriving DecidableEq

/-- validate from slice_compaction.go: the conjunction of the Require*
checks; `false` means the Go code panics. -/
def SliceCompactionParams.validate (p : SliceCompactionParams) (length : Nat) : Bool :=
  decide (0 ≤ p.UsedStart) &&
  (if 0 < length then decide (p.UsedStart < (length : Int))
   else decide (p.UsedStart = (length : Int))) &&
  decide (0 ≤ p.MinSize) &&
  decide (0 ≤ p.WastePercent) && decide (p.WastePercent ≤ 100)

/-- Compact from slice_compaction.go.  `none` models the validation panic.
On compaction the elements `data[UsedStart:]` are moved to the front and the
slice is resliced to the used size; reslicing keeps the capacity. -/
def Compact {α : Type} (data : GoSlice α) (p : SliceCompactionParams) :
    Option (GoSlice α × Int) :=
  let length := data.elems.length
  if p.validate length then
    if length = 0 then some (data, 0)
    else
      let s := p.UsedStart.toNat
      let used := length - s
      let wastePercent := 100 - 100 * used / length
      if p.MinSize ≤ (used : Int) ∧ p.WastePercent ≤ (wastePercent : Int) ∧
          0 < p.UsedStart then
        some (⟨data.elems.drop s, data.cap⟩, 0)
      else
        some (data, p.UsedStart)
  else none

/-- SliceReallocationParams from slice_compaction.go. -/
structure SliceReallocationParams where
  UsedStart : Int
  UsedEnd : Int
  MinSize : Int
  WastePercent : Int
  WasteBuffer : Int
  deriving DecidableEq

/-- validate from slice_compaction.go (reallocation variant). -/
def SliceReallocationParams.validate (p : SliceReallocationParams) (length : Nat) : Bool :=
  decide (0 ≤ p.UsedStart) && decide (0 ≤ p.UsedEnd) &&
  (if 0 < length then
      decide (p.UsedStart < p.UsedEnd) && decide (p.UsedEnd ≤ (length : Int))
   else decide (p.UsedStart = 0) && decide (p.UsedEnd = 0)) &&
  decide (0 ≤ p.MinSize) &&
  decide (0 ≤ p.WastePercent) && decide (p.WastePercent ≤ 100) &&
  decide (0 ≤ p.WasteBuffer) && decide (p.WasteBuffer ≤ 99)

/-- Reallocate from slice_compaction.go.  `none` models the validation panic.
The fresh buffer `make([]T, 0, targetCapacity)` followed by one bulk append
of `used ≤ targetCapacity` elements keeps capacity `targetCapacity`. -/
def Reallocate {α : Type} (data : GoSlice α) (p : SliceReallocationParams) :
    Option (GoSlice α × Int × Int) :=
  let length := data.elems.length
  if p.validate length then
    if length = 0 then some (data, 0, 0)
    else
      let s := p.UsedStart.toNat
      let e := p.UsedEnd.toNat
      let used := e - s
      let wastePercent : Int := 100 - ((100 * used / data.cap : Nat) : Int)
      if p.MinSize ≤ (used : Int) ∧ p.WastePercent ≤ wastePercent then
        let targetPercent := p.WastePercent.toNat * p.WasteBuffer.toNat / 100
        let targetCapacity := max (used * 100 / (100 - targetPercent)) 10
        let usedData := (data.elems.drop s).take used
        some (⟨usedData, targetCapacity⟩, 0, (usedData.length : Int))
      else
        some (data, p.UsedStart, p.UsedEnd)
  else none

/-- ErrorEmptyQueue from the queues package. -/
def ErrorEmptyQueue : String := "queue is empty"

/-- ErrorEmptyStack from the stacks package. -/
def ErrorEmptyStack : String := "stack is empty"

/-- SliceQueueConfig from slice_queue_config.go. -/
structure SliceQueueConfig where
  CompactOnEnqueue : Bool
  ReallocateOnDequeue : Bool
  MinOptimizationLength : Int
  CompactWastePercent : Int
  ReallocateWastePercent : Int
  deriving DecidableEq

/-- SliceQueue state from slice_queue.go: head cursor, backing buffer and
configuration.  `curr` only ever takes non-negative values in Go, so it is
a `Nat` here. -/
structure SliceQueue (α : Type) where
  curr : Nat
  data : GoSlice α
  config : SliceQueueConfig
  deriving DecidableEq

/-- NewSliceQueueWithConfig: `make([]T, 0, len(values))` followed by one bulk
append yields exactly the values with capacity `values.length`. -/
def NewSliceQueueWithConfig {α : Type} (config : SliceQueueConfig) (values : List α) :
    SliceQueue α :=
  { curr := 0, data := ⟨values, values.length⟩, config := config }

/-- NewSliceQueue from slice_queue.go with the default configuration exactly
as that file writes it (note `ReallocateOnDequeue: false` there). -/
def NewSliceQueue {α : Type} (values : List α) : SliceQueue α :=
  NewSliceQueueWithConfig
    { CompactOnEnqueue := true
      ReallocateOnDequeue := false
      MinOptimizationLength := 100
      CompactWastePercent := 50
      ReallocateWastePercent := 75 } values

/-- Size from slice_queue.go: `len(q.data) - q.curr` as a Go int. -/
def SliceQueue.Size {α : Type} (q : SliceQueue α) : Int :=
  (q.data.elems.length : Int) - (q.curr : Int)

/-- IsEmpty from slice_queue.go. -/
def SliceQueue.IsEmpty {α : Type} (q : SliceQueue α) : Bool :=
  decide (q.Size = 0)

/-- Enqueue from slice_queue.go.  The compaction branch reslices
`q.data[q.curr:]`, which panics (`none`) when `curr > len(data)`; that state
is unreachable from the API. -/
def SliceQueue.Enqueue {α : Type} (q : SliceQueue α) (value : α) : Option (SliceQueue α) :=
  if q.config.CompactOnEnqueue = true ∧
      q.config.MinOptimizationLength ≤ (q.curr : Int) ∧
      100 * q.Size < q.config.CompactWastePercent * (q.data.elems.length : Int) then
    if q.curr ≤ q.data.elems.length then
      some { q with curr := 0,
                    data := goAppend ⟨q.data.elems.drop q.curr, q.data.cap⟩ value }
    else none
  else
    some { q with data := goAppend q.data value }

/-- Dequeue from slice_queue.go.  Returns the Go `(value, error)` pair
together with the updated receiver; `none` models the index panic on the
(unreachable) read past the buffer. -/
def SliceQueue.Dequeue {α : Type} (q : SliceQueue α) :
    Option (Except String α × SliceQueue α) :=
  if q.IsEmpty then some (Except.error ErrorEmptyQueue, q)
  else
    match q.data.elems.get? q.curr with
    | none => none
    | some v =>
      let c := q.curr + 1
      if q.config.ReallocateOnDequeue = true ∧
          q.config.MinOptimizationLength ≤ (c : Int) ∧
          100 * ((q.data.elems.length : Int) - (c : Int)) <
            (100 - q.config.ReallocateWastePercent) * (q.data.cap : Int) then
        let rest := q.data.elems.drop c
        some (Except.ok v, { q with curr := 0, data := ⟨rest, max (2 * rest.length) 10⟩ })
      else
        some (Except.ok v, { q with curr := c })

/-- Peek from slice_queue.go (does not write any field). -/
def SliceQueue.Peek {α : Type} (q : SliceQueue α) : Option (Except String α) :=
  if q.IsEmpty then some (Except.error ErrorEmptyQueue)
  else
    match q.data.elems.get? q.curr with
    | none => none
    | some v => some (Except.ok v)

/-- SliceStackConfig from the stacks package. -/
structure SliceStackConfig where
  ReallocateOnPop : Bool
  MinOptimizationLength : Int
  ReallocateWastePercent : Int
  ReallocateWasteBuffer : Int
  deriving DecidableEq

/-- SliceStack state: exclusive top cursor, backing buffer, configuration. -/
structure SliceStack (α : Type) where
  curr : Nat
  data : GoSlice α
  config : SliceStackConfig
  deriving DecidableEq

/-- NewSliceStackWithConfig. -/
def NewSliceStackWithConfig {α : Type} (config : SliceStackConfig) (values : List α) :
    SliceStack α :=
  { curr := values.length, data := ⟨values, values.length⟩, config := config }

/-- NewSliceStack with its default configuration. -/
def NewSliceStack {α : Type} (values : List α) : SliceStack α :=
  NewSliceStackWithConfig
    { ReallocateOnPop := true
      MinOptimizationLength := 100
      ReallocateWastePercent := 75
      ReallocateWasteBuffer := 80 } values

/-- Size of the stack: `s.curr`. -/
def SliceStack.Size {α : Type} (s : SliceStack α) : Nat := s.curr

/-- IsEmpty of the stack: `s.curr == 0`. -/
def SliceStack.IsEmpty {α : Type} (s : SliceStack α) : Bool :=
  decide (s.curr = 0)

/-- Push: append when the cursor sits at the buffer length, otherwise
overwrite slot `curr`; writing past the length panics (`none`),
unreachable from the API. -/
def SliceStack.Push {α : Type} (s : SliceStack α) (value : α) : Option (SliceStack α) :=
  if s.curr = s.data.elems.length then
    some { s with curr := s.curr + 1, data := goAppend s.data value }
  else if s.curr < s.data.elems.length then
    some { s with curr := s.curr + 1,
                  data := ⟨s.data.elems.set s.curr value, s.data.cap⟩ }
  else none

/-- Pop: read the top, decrement the cursor, then reset the buffer when the
stack became empty, else invoke Reallocate when configured.  A Reallocate
validation panic propagates as `none`. -/
def SliceStack.Pop {α : Type} (s : SliceStack α) :
    Option (Except String α × SliceStack α) :=
  if s.IsEmpty then some (Except.error ErrorEmptyStack, s)
  else
    match s.data.elems.get? (s.curr - 1) with
    | none => none
    | some v =>
      let c := s.curr - 1
      if c = 0 then
        some (Except.ok v, { s with curr := 0, data := ⟨[], s.data.cap⟩ })
      else if s.config.ReallocateOnPop then
        match Reallocate s.data
            { UsedStart := 0
              UsedEnd := (c : Int)
              MinSize := s.config.MinOptimizationLength
              WastePercent := s.config.ReallocateWastePercent
              WasteBuffer := s.config.ReallocateWasteBuffer } with
        | none => none
        | some (rData, _, e) =>
          some (Except.ok v, { s with curr := e.toNat, data := rData })
      else
        some (Except.ok v, { s with curr := c })

/-- Peek of the stack. -/
def SliceStack.Peek {α : Type} (s : SliceStack α) : Option (Except String α) :=
  if s.IsEmpty then some (Except.error ErrorEmptyStack)
  else
    match s.data.elems.get? (s.curr - 1) with
    | none => none
    | some v => some (Except.ok v)

/-- Live contents of a queue: the window `data[curr:]`. -/
def SliceQueue.toList {α : Type} (q : SliceQueue α) : List α :=
  q.data.elems.drop q.curr

/-- Live contents of a stack: the window `data[:curr]`, bottom first. -/
def SliceStack.toList {α : Type} (s : SliceStack α) : List α :=
  s.data.elems.take s.curr

/-- Well-formedness of a queue state: the cursor is inside the buffer and
the buffer fits in its capacity (true of every Go slice). -/
def SliceQueue.WF {α : Type} (q : SliceQueue α) : Prop :=
  q.curr ≤ q.data.elems.length ∧ q.data.elems.length ≤ q.data.cap

/-- Well-formedness of a stack state. -/
def SliceStack.WF {α : Type} (s : SliceStack α) : Prop :=
  s.curr ≤ s.data.elems.length ∧ s.data.elems.length ≤ s.data.cap

instance {α : Type} (q : SliceQueue α) : Decidable q.WF := by
  unfold SliceQueue.WF; infer_instance

instance {α : Type} (s : SliceStack α) : Decidable s.WF := by
  unfold SliceStack.WF; infer_instance

/-- Enqueue a whole list in order; `none` if any single Enqueue panics. -/
def enqueueAll {α : Type} : SliceQueue α → List α → Option (SliceQueue α)
  | q, [] => some q
  | q, v :: vs =>
    match q.Enqueue v with
    | some q' => enqueueAll q' vs
    | none => none

/-- Dequeue `n` times, requiring every call to succeed with a nil error;
returns the extracted values in extraction order and the final state. -/
def dequeueN {α : Type} : Nat → SliceQueue α → Option (List α × SliceQueue α)
  | 0, q => some ([], q)
  | n + 1, q =>
    match q.Dequeue with
    | some (Except.ok v, q') =>
      (dequeueN n q').map (fun p => (v :: p.1, p.2))
    | _ => none

/-- Push a whole list in order; `none` if any single Push panics. -/
def pushAll {α : Type} : SliceStack α → List α → Option (SliceStack α)
  | s, [] => some s
  | s, v :: vs =>
    match s.Push v with
    | some s' => pushAll s' vs
    | none => none

/-- Pop `n` times, requiring every call to succeed with a nil error. -/
def popN {α : Type} : Nat → SliceStack α → Option (List α × SliceStack α)
  | 0, s => some ([], s)
  | n + 1, s =>
    match s.Pop with
    | some (Except.ok v, s') =>
      (popN n s').map (fun p => (v :: p.1, p.2))
    | _ => none

theorem goAppend_elems {α : Type} (s : GoSlice α) (v : α) :
    (goAppend s v).elems = s.elems ++ [v] := by
  unfold goAppend; split <;> rfl

theorem goAppend_le_cap {α : Type} (s : GoSlice α) (v : α) :
    (goAppend s v).elems.length ≤ (goAppend s v).cap := by
  unfold goAppend; split
  · next h => simpa using h
  · simp [growCap]

theorem Enqueue_spec {α : Type} (q : SliceQueue α) (v : α)
    (h : q.curr ≤ q.data.elems.length) :
    ∃ q', q.Enqueue v = some q' ∧ q'.toList = q.toList ++ [v] ∧ q'.WF ∧
      q'.config = q.config := by
  unfold SliceQueue.Enqueue
  by_cases hopt : q.config.CompactOnEnqueue = true ∧
      q.config.MinOptimizationLength ≤ (q.curr : Int) ∧
      100 * q.Size < q.config.CompactWastePercent * (q.data.elems.length : Int)
  · rw [if_pos hopt, if_pos h]
    refine ⟨_, rfl, ?_, ⟨by simp, goAppend_le_cap _ _⟩, rfl⟩
    simp [SliceQueue.toList, goAppend_elems]
  · rw [if_neg hopt]
    refine ⟨_, rfl, ?_, ⟨?_, goAppend_le_cap _ _⟩, rfl⟩
    · simp only [SliceQueue.toList, goAppend_elems]
      exact List.drop_append_of_le_length h
    · simp only [goAppend_elems, List.length_append, List.length_singleton]
      omega

theorem Dequeue_spec {α : Type} (q : SliceQueue α) (v : α) (l : List α)
    (hw : q.WF) (ht : q.toList = v :: l) :
    ∃ q', q.Dequeue = some (Except.ok v, q') ∧ q'.toList = l ∧ q'.WF ∧
      q'.config = q.config := by
  have hlt : q.curr < q.data.elems.length := by
    by_contra hge
    have : q.data.elems.drop q.curr = [] := List.drop_eq_nil_of_le (by omega)
    rw [SliceQueue.toList] at ht; rw [this] at ht; exact List.noConfusion ht
  have hget : q.data.elems.get? q.curr = some v := by
    have h0 : (q.data.elems.drop q.curr).get? 0 = some v := by
      rw [SliceQueue.toList] at ht; rw [ht]; rfl
    rw [List.get?_eq_getElem?] at h0 ⊢
    rwa [List.getElem?_drop, Nat.add_zero] at h0
  have hdrop : q.data.elems.drop (q.curr + 1) = l := by
    have h0 : (q.data.elems.drop q.curr).drop 1 = l := by
      rw [SliceQueue.toList] at ht; rw [ht]; rfl
    rwa [List.drop_drop] at h0
  have hne : q.IsEmpty = false := by
    simp [SliceQueue.IsEmpty, SliceQueue.Size]; omega
  unfold SliceQueue.Dequeue
  rw [hne]; simp only [Bool.false_eq_true, if_false, hget]
  split
  · refine ⟨_, rfl, ?_, ⟨by simp, ?_⟩, rfl⟩
    · simp [SliceQueue.toList, hdrop]
    · simp only [List.length_drop]
      omega
  · refine ⟨_, rfl, ?_, ⟨by simpa using hlt, hw.2⟩, rfl⟩
    simp [SliceQueue.toList, hdrop]

theorem enqueueAll_spec {α : Type} (vs : List α) :
    ∀ q : SliceQueue α, q.WF →
      ∃ q', enqueueAll q vs = some q' ∧ q'.toList = q.toList ++ vs ∧ q'.WF := by
  induction vs with
  | nil => exact fun q hq => ⟨q, rfl, by simp, hq⟩
  | cons v vs ih =>
    intro q hq
    obtain ⟨q1, h1, h2, h3, _⟩ := Enqueue_spec q v hq.1
    obtain ⟨q', h4, h5, h6⟩ := ih q1 h3
    refine ⟨q', ?_, ?_, h6⟩
    · simp only [enqueueAll, h1]; exact h4
    · rw [h5, h2]; simp

theorem dequeueN_spec {α : Type} (l : List α) :
    ∀ q : SliceQueue α, q.WF → q.toList = l →
      ∃ q', dequeueN l.length q = some (l, q') := by
  induction l with
  | nil => exact fun q _ _ => ⟨q, rfl⟩
  | cons v vs ih =>
    intro q hq ht
    obtain ⟨q1, h1, h2, h3, _⟩ := Dequeue_spec q v vs hq ht
    obtain ⟨q', h4⟩ := ih q1 h3 h2
    refine ⟨q', ?_⟩
    simp only [List.length_cons, dequeueN, h1, h4, Option.map_some']

/-- C1: for every SliceQueue configuration (in particular every combination
of the CompactOnEnqueue and ReallocateOnDequeue flags and any parameter
values) and every value sequence, enqueuing v1..vn into a fresh queue and
then dequeuing n times yields v1..vn in order, each with a nil error. -/
theorem sliceQueue_fifo {α : Type} (config : SliceQueueConfig) (vs : List α) :
    ((enqueueAll (NewSliceQueueWithConfig config []) vs).bind
        (fun q => dequeueN vs.length q)).map Prod.fst = some vs := by
  obtain ⟨q1, h1, h2, h3⟩ := enqueueAll_spec vs (NewSliceQueueWithConfig config [])
    ⟨by simp [NewSliceQueueWithConfig], by simp [NewSliceQueueWithConfig]⟩
  have ht : q1.toList = vs := by
    rw [h2]; simp [NewSliceQueueWithConfig, SliceQueue.toList]
  obtain ⟨q', h4⟩ := dequeueN_spec vs q1 h3 ht
  rw [h1]
  show (dequeueN vs.length q1).map Prod.fst = some vs
  rw [h4]; rfl

theorem Reallocate_window {α : Type} (data : GoSlice α) (c : Nat) (m w b : Int)
    (hc : 0 < c) (hcl : c ≤ data.elems.length) (hcap : data.elems.length ≤ data.cap)
    (hm : 0 ≤ m) (hw : 0 ≤ w) (hw2 : w ≤ 100) (hb : 0 ≤ b) (hb2 : b ≤ 99) :
    ∃ d st, Reallocate data ⟨0, (c : Int), m, w, b⟩ = some (d, st, (c : Int)) ∧
      d.elems.take c = data.elems.take c ∧ c ≤ d.elems.length ∧
      d.elems.length ≤ d.cap := by
  have hlen : 0 < data.elems.length := lt_of_lt_of_le hc hcl
  have hval : SliceReallocationParams.validate ⟨0, (c : Int), m, w, b⟩
      data.elems.length = true := by
    unfold SliceReallocationParams.validate
    rw [if_pos hlen]
    simp only [Bool.and_eq_true, decide_eq_true_eq]
    omega
  have htp : w.toNat * b.toNat / 100 ≤ 99 := by
    calc w.toNat * b.toNat / 100 ≤ 100 * 99 / 100 := by
          apply Nat.div_le_div_right
          exact Nat.mul_le_mul (by omega) (by omega)
      _ = 99 := by norm_num
  have htake : (data.elems.take c).length = c := by
    rw [List.length_take]; omega
  simp only [Reallocate, hval, if_true, Int.toNat_natCast, Int.toNat_zero,
    Nat.sub_zero, List.drop_zero]
  rw [if_neg (by omega : ¬ data.elems.length = 0)]
  by_cases htr : m ≤ (c : Int) ∧
      w ≤ (100 : Int) - ((100 * c / data.cap : Nat) : Int)
  · rw [if_pos htr]
    refine ⟨_, _, by rw [htake], ?_, ?_, ?_⟩
    · simp [List.take_take]
    · simp [htake]
    · simp only [htake]
      have h1 : c = c * 100 / 100 := by omega
      calc c = c * 100 / 100 := h1
        _ ≤ c * 100 / (100 - w.toNat * b.toNat / 100) :=
            Nat.div_le_div_left (by omega) (by omega)
        _ ≤ max (c * 100 / (100 - w.toNat * b.toNat / 100)) 10 := le_max_left _ _
  · rw [if_neg htr]
    exact ⟨data, 0, rfl, rfl, hcl, hcap⟩

theorem Push_spec {α : Type} (s : SliceStack α) (v : α) (hw : s.WF) :
    ∃ s', s.Push v = some s' ∧ s'.toList = s.toList ++ [v] ∧ s'.WF ∧
      s'.config = s.config := by
  unfold SliceStack.Push
  by_cases he : s.curr = s.data.elems.length
  · rw [if_pos he]
    refine ⟨_, rfl, ?_, ⟨?_, goAppend_le_cap _ _⟩, rfl⟩
    · simp only [SliceStack.toList, goAppend_elems]
      rw [he, List.take_append_eq_append_take]
      simp
    · simp only [goAppend_elems, List.length_append, List.length_singleton]
      omega
  · have hlt : s.curr < s.data.elems.length := lt_of_le_of_ne hw.1 he
    rw [if_neg he, if_pos hlt]
    refine ⟨_, rfl, ?_, ⟨by simpa using hlt, by simpa using hw.2⟩, rfl⟩
    simp only [SliceStack.toList]
    rw [List.set_eq_take_append_cons_drop, if_pos hlt, List.take_append_eq_append_take]
    simp only [List.length_take]
    rw [min_eq_left (le_of_lt hlt)]
    have h1 : s.curr + 1 - s.curr = 1 := by omega
    rw [h1]
    simp [List.take_take]

theorem Pop_spec {α : Type} (s : SliceStack α) (v : α) (l : List α)
    (hw : s.WF)
    (hm : 0 ≤ s.config.MinOptimizationLength)
    (hwp : 0 ≤ s.config.ReallocateWastePercent)
    (hwp2 : s.config.ReallocateWastePercent ≤ 100)
    (hwb : 0 ≤ s.config.ReallocateWasteBuffer)
    (hwb2 : s.config.ReallocateWasteBuffer ≤ 99)
    (ht : s.toList = l ++ [v]) :
    ∃ s', s.Pop = some (Except.ok v, s') ∧ s'.toList = l ∧ s'.WF ∧
      s'.config = s.config := by
  have hw1 : s.curr ≤ s.data.elems.length := hw.1
  have hw2 : s.data.elems.length ≤ s.data.cap := hw.2
  have hlen : s.toList.length = s.curr := by
    simp only [SliceStack.toList, List.length_take]
    omega
  have hcurr : s.curr = l.length + 1 := by
    rw [← hlen, ht]; simp
  have hsplit : s.data.elems = (l ++ [v]) ++ s.data.elems.drop s.curr := by
    conv_lhs => rw [← List.take_append_drop s.curr s.data.elems]
    rw [SliceStack.toList] at ht; rw [ht]
  have hget : s.data.elems.get? (s.curr - 1) = some v := by
    rw [List.get?_eq_getElem?, hsplit, hcurr]
    have h1 : l.length + 1 - 1 = l.length := by omega
    rw [h1, List.getElem?_append, if_pos (by simp)]
    rw [← List.get?_eq_getElem?]
    exact List.get?_concat_length l v
  have htake_c : s.data.elems.take l.length = l := by
    have h0 : (s.data.elems.take s.curr).take l.length = l := by
      rw [SliceStack.toList] at ht; rw [ht]
      exact List.take_left l [v]
    rwa [List.take_take, min_eq_left (by omega)] at h0
  have hne : s.IsEmpty = false := by
    simp [SliceStack.IsEmpty]; omega
  unfold SliceStack.Pop
  rw [hne]; simp only [Bool.false_eq_true, if_false, hget]
  by_cases hc0 : s.curr - 1 = 0
  · rw [if_pos hc0]
    have hl0 : l = [] := List.eq_nil_of_length_eq_zero (by omega)
    refine ⟨_, rfl, ?_, ⟨by simp, by simp⟩, rfl⟩
    simp [SliceStack.toList, hl0]
  · rw [if_neg hc0]
    by_cases hro : s.config.ReallocateOnPop
    · rw [if_pos hro]
      obtain ⟨d, st, hre, htk, hcd, hdc⟩ :=
        Reallocate_window s.data (s.curr - 1)
          s.config.MinOptimizationLength s.config.ReallocateWastePercent
          s.config.ReallocateWasteBuffer
          (by omega) (by omega) hw2 hm hwp hwp2 hwb hwb2
      rw [hre]
      refine ⟨_, rfl, ?_, ⟨?_, hdc⟩, rfl⟩
      · simp only [SliceStack.toList, Int.toNat_natCast]
        have h2 : s.curr - 1 = l.length := by omega
        rw [htk, h2, htake_c]
      · simpa using hcd
    · rw [if_neg hro]
      refine ⟨_, rfl, ?_, ⟨by simp; omega, hw.2⟩, rfl⟩
      simp only [SliceStack.toList]
      have h2 : s.curr - 1 = l.length := by omega
      rw [h2, htake_c]

theorem pushAll_spec {α : Type} (vs : List α) :
    ∀ s : SliceStack α, s.WF →
      ∃ s', pushAll s vs = some s' ∧ s'.toList = s.toList ++ vs ∧ s'.WF ∧
        s'.config = s.config := by
  induction vs with
  | nil => exact fun s hs => ⟨s, rfl, by simp, hs, rfl⟩
  | cons v vs ih =>
    intro s hs
    obtain ⟨s1, h1, h2, h3, h4⟩ := Push_spec s v hs
    obtain ⟨s', h5, h6, h7, h8⟩ := ih s1 h3
    refine ⟨s', ?_, ?_, h7, h8.trans h4⟩
    · simp only [pushAll, h1]; exact h5
    · rw [h6, h2]; simp

theorem popN_spec {α : Type} (l : List α) :
    ∀ s : SliceStack α, s.WF →
      0 ≤ s.config.MinOptimizationLength →
      0 ≤ s.config.ReallocateWastePercent →
      s.config.ReallocateWastePercent ≤ 100 →
      0 ≤ s.config.ReallocateWasteBuffer →
      s.config.ReallocateWasteBuffer ≤ 99 →
      s.toList = l →
      ∃ s', popN l.length s = some (l.reverse, s') := by
  induction l using List.reverseRecOn with
  | nil => exact fun s _ _ _ _ _ _ _ => ⟨s, rfl⟩
  | append_singleton l v ih =>
    intro s hw hm hwp hwp2 hwb hwb2 ht
    obtain ⟨s1, h1, h2, h3, hc⟩ := Pop_spec s v l hw hm hwp hwp2 hwb hwb2 ht
    obtain ⟨s', h4⟩ := ih s1 h3 (hc ▸ hm) (hc ▸ hwp) (hc ▸ hwp2) (hc ▸ hwb)
      (hc ▸ hwb2) h2
    refine ⟨s', ?_⟩
    rw [List.length_append, List.length_singleton]
    simp only [popN, h1, h4, Option.map_some']
    simp

/-- C2: for every SliceStack configuration with parameters in their
documented ranges and every value sequence, pushing v1..vn onto a fresh
stack and then popping n times yields vn..v1, each with a nil error. -/
theorem sliceStack_lifo {α : Type} (config : SliceStackConfig) (vs : List α)
    (hm : 0 ≤ config.MinOptimizationLength)
    (hwp : 0 ≤ config.ReallocateWastePercent)
    (hwp2 : config.ReallocateWastePercent ≤ 100)
    (hwb : 0 ≤ config.ReallocateWasteBuffer)
    (hwb2 : config.ReallocateWasteBuffer ≤ 99) :
    ((pushAll (NewSliceStackWithConfig config []) vs).bind
        (fun s => popN vs.length s)).map Prod.fst = some vs.reverse := by
  obtain ⟨s1, h1, h2, h3, h4⟩ := pushAll_spec vs (NewSliceStackWithConfig config [])
    ⟨by simp [NewSliceStackWithConfig], by simp [NewSliceStackWithConfig]⟩
  have ht : s1.toList = vs := by
    rw [h2]; simp [NewSliceStackWithConfig, SliceStack.toList]
  obtain ⟨s', h5⟩ := popN_spec vs s1 h3 (h4 ▸ hm) (h4 ▸ hwp) (h4 ▸ hwp2)
    (h4 ▸ hwb) (h4 ▸ hwb2) ht
  rw [h1]
  show (popN vs.length s1).map Prod.fst = some vs.reverse
  rw [h5]; rfl

/-- Witness for C2 at a concrete configuration and input. -/
theorem sliceStack_lifo_witness :
    ((pushAll (NewSliceStackWithConfig ⟨true, 0, 75, 80⟩ ([] : List Nat))
        [1, 2, 3]).bind (fun s => popN 3 s)).map Prod.fst = some [3, 2, 1] :=
  sliceStack_lifo ⟨true, 0, 75, 80⟩ [1, 2, 3] (by decide) (by decide)
    (by decide) (by decide) (by decide)

theorem compact_validate_iff (p : SliceCompactionParams) (length : Nat) :
    p.validate length = true ↔
      (0 ≤ p.UsedStart ∧ (0 < length → p.UsedStart < (length : Int)) ∧
        (length = 0 → p.UsedStart = 0) ∧ 0 ≤ p.MinSize ∧
        0 ≤ p.WastePercent ∧ p.WastePercent ≤ 100) := by
  unfold SliceCompactionParams.validate
  by_cases hl : 0 < length
  · rw [if_pos hl]
    simp only [Bool.and_eq_true, decide_eq_true_eq]
    omega
  · rw [if_neg hl]
    simp only [Bool.and_eq_true, decide_eq_true_eq]
    omega

theorem realloc_validate_iff (p : SliceReallocationParams) (length : Nat) :
    p.validate length = true ↔
      (0 ≤ p.UsedStart ∧ 0 ≤ p.UsedEnd ∧
        (0 < length → p.UsedStart < p.UsedEnd ∧ p.UsedEnd ≤ (length : Int)) ∧
        (length = 0 → p.UsedStart = 0 ∧ p.UsedEnd = 0) ∧
        0 ≤ p.MinSize ∧ 0 ≤ p.WastePercent ∧ p.WastePercent ≤ 100 ∧
        0 ≤ p.WasteBuffer ∧ p.WasteBuffer ≤ 99) := by
  unfold SliceReallocationParams.validate
  by_cases hl : 0 < length
  · rw [if_pos hl]
    simp only [Bool.and_eq_true, decide_eq_true_eq]
    omega
  · rw [if_neg hl]
    simp only [Bool.and_eq_true, decide_eq_true_eq]
    omega

theorem Compact_none_iff {α : Type} (data : GoSlice α) (p : SliceCompactionParams) :
    Compact data p = none ↔ p.validate data.elems.length = false := by
  unfold Compact
  by_cases hv : p.validate data.elems.length = true
  · rw [if_pos hv]
    constructor
    · intro h; exfalso; revert h
      split
      · simp
      · dsimp only
        split <;> simp
    · intro h; rw [hv] at h; cases h
  · rw [if_neg hv]
    simp only [Bool.not_eq_true] at hv
    simp [hv]

theorem Reallocate_none_iff {α : Type} (data : GoSlice α)
    (p : SliceReallocationParams) :
    Reallocate data p = none ↔ p.validate data.elems.length = false := by
  unfold Reallocate
  by_cases hv : p.validate data.elems.length = true
  · rw [if_pos hv]
    constructor
    · intro h; exfalso; revert h
      split
      · simp
      · dsimp only
        split <;> simp
    · intro h; rw [hv] at h; cases h
  · rw [if_neg hv]
    simp only [Bool.not_eq_true] at hv
    simp [hv]

/-- C3: for a non-empty slice and in-range parameters, Compact shifts
exactly when used ≥ MinSize, 100 − 100·used/len ≥ WastePercent (truncating
division) and UsedStart > 0; on a shift it returns the window
data[UsedStart:] at the front with start 0 and unchanged capacity, and on
no shift it returns the input slice and start unchanged. -/
theorem compact_spec {α : Type} (data : GoSlice α) (p : SliceCompactionParams)
    (hlen : 0 < data.elems.length)
    (hs0 : 0 ≤ p.UsedStart) (hs1 : p.UsedStart < (data.elems.length : Int))
    (hm : 0 ≤ p.MinSize) (hw0 : 0 ≤ p.WastePercent) (hw1 : p.WastePercent ≤ 100) :
    Compact data p =
      if p.MinSize ≤ ((data.elems.length - p.UsedStart.toNat : Nat) : Int) ∧
          p.WastePercent ≤ ((100 - 100 * (data.elems.length - p.UsedStart.toNat) /
            data.elems.length : Nat) : Int) ∧
          0 < p.UsedStart
      then some (⟨data.elems.drop p.UsedStart.toNat, data.cap⟩, 0)
      else some (data, p.UsedStart) := by
  have hval : p.validate data.elems.length = true :=
    (compact_validate_iff p data.elems.length).mpr
      ⟨hs0, fun _ => hs1, fun h => by omega, hm, hw0, hw1⟩
  simp only [Compact, hval, if_true]
  rw [if_neg (by omega : ¬ data.elems.length = 0)]

/-- Witness for C3 on the spec's own compaction example. -/
theorem compact_spec_witness :
    Compact (⟨[0, 0, 0, 0, 0, 1, 2, 3], 8⟩ : GoSlice Nat) ⟨5, 1, 50⟩ =
      some (⟨[1, 2, 3], 8⟩, 0) := by
  have h := compact_spec (⟨[0, 0, 0, 0, 0, 1, 2, 3], 8⟩ : GoSlice Nat) ⟨5, 1, 50⟩
    (by decide) (by decide) (by decide) (by decide) (by decide) (by decide)
  rw [h]; decide

/-- C4 counterexample: the empty slice of capacity 1 with the valid
parameters (UsedStart 0, UsedEnd 0, MinSize 0, WastePercent 50,
WasteBuffer 0) satisfies the claim's trigger condition (used = 0 ≥ MinSize
and waste 100 − 100·0/1 = 100 ≥ 50), so the claim demands a fresh buffer
of capacity max(0·100/(100−0), 10) = 10, yet Reallocate returns the input
unchanged with capacity 1: the trigger characterization is wrong for
empty slices, which Reallocate always returns untouched. -/
theorem reallocate_empty_counterexample :
    Reallocate (⟨[], 1⟩ : GoSlice Nat) ⟨0, 0, 0, 50, 0⟩ = some (⟨[], 1⟩, 0, 0) ∧
    (0 : Int) ≤ ((0 : Nat) : Int) ∧
    (50 : Int) ≤ (100 : Int) - ((100 * 0 / 1 : Nat) : Int) ∧
    (1 : Nat) ≠ max (0 * 100 / (100 - 50 * 0 / 100)) 10 := by decide

/-- C4 (amended): for every NON-EMPTY slice and valid parameters,
Reallocate replaces the buffer exactly when used ≥ MinSize and
100 − 100·used/cap ≥ WastePercent (truncating division); on trigger the
result holds data[UsedStart:UsedEnd] at the front with start 0, end used
and capacity max(used·100/(100 − WastePercent·WasteBuffer/100), 10); on
no trigger the input slice and indices are returned identically.  An empty
slice is always returned unchanged with indices (0, 0). -/
theorem reallocate_spec {α : Type} (data : GoSlice α) (p : SliceReallocationParams)
    (hlen : 0 < data.elems.length) (hcap : data.elems.length ≤ data.cap)
    (hs0 : 0 ≤ p.UsedStart) (hse : p.UsedStart < p.UsedEnd)
    (he : p.UsedEnd ≤ (data.elems.length : Int))
    (hm : 0 ≤ p.MinSize) (hw0 : 0 ≤ p.WastePercent) (hw1 : p.WastePercent ≤ 100)
    (hb0 : 0 ≤ p.WasteBuffer) (hb1 : p.WasteBuffer ≤ 99) :
    Reallocate data p =
      if p.MinSize ≤ ((p.UsedEnd.toNat - p.UsedStart.toNat : Nat) : Int) ∧
          p.WastePercent ≤ (100 : Int) -
            ((100 * (p.UsedEnd.toNat - p.UsedStart.toNat) / data.cap : Nat) : Int)
      then some (⟨(data.elems.drop p.UsedStart.toNat).take
            (p.UsedEnd.toNat - p.UsedStart.toNat),
          max ((p.UsedEnd.toNat - p.UsedStart.toNat) * 100 /
            (100 - p.WastePercent.toNat * p.WasteBuffer.toNat / 100)) 10⟩,
        0, ((p.UsedEnd.toNat - p.UsedStart.toNat : Nat) : Int))
      else some (data, p.UsedStart, p.UsedEnd) := by
  have hval : p.validate data.elems.length = true :=
    (realloc_validate_iff p data.elems.length).mpr
      ⟨hs0, by omega, fun _ => ⟨hse, he⟩, fun h => by omega, hm, hw0, hw1, hb0, hb1⟩
  have hud : ((data.elems.drop p.UsedStart.toNat).take
      (p.UsedEnd.toNat - p.UsedStart.toNat)).length =
      p.UsedEnd.toNat - p.UsedStart.toNat := by
    simp only [List.length_take, List.length_drop]
    omega
  simp only [Reallocate, hval, if_true]
  rw [if_neg (by omega : ¬ data.elems.length = 0), hud]

/-- Witness for C4 (amended) on the spec's reallocation-shrink example. -/
theorem reallocate_spec_witness :
    Reallocate (⟨[9, 9, 1, 2, 3, 4, 5, 9, 9, 9], 20⟩ : GoSlice Nat)
        ⟨2, 7, 3, 50, 80⟩ = some (⟨[1, 2, 3, 4, 5], 10⟩, 0, 5) := by
  have h := reallocate_spec (⟨[9, 9, 1, 2, 3, 4, 5, 9, 9, 9], 20⟩ : GoSlice Nat)
    ⟨2, 7, 3, 50, 80⟩ (by decide) (by decide) (by decide) (by decide) (by decide)
    (by decide) (by decide) (by decide) (by decide) (by decide)
  rw [h]; decide

theorem Dequeue_empty {α : Type} (q : SliceQueue α) (h : q.IsEmpty = true) :
    q.Dequeue = some (Except.error ErrorEmptyQueue, q) := by
  unfold SliceQueue.Dequeue
  simp [h]

theorem Pop_empty {α : Type} (s : SliceStack α) (h : s.IsEmpty = true) :
    s.Pop = some (Except.error ErrorEmptyStack, s) := by
  unfold SliceStack.Pop
  simp [h]

theorem QueuePeek_spec {α : Type} (q : SliceQueue α) (hw : q.WF) :
    q.Peek.isSome = true := by
  unfold SliceQueue.Peek
  by_cases he : q.IsEmpty = true
  · simp [he]
  · have hlt : q.curr < q.data.elems.length := by
      have h1 := hw.1
      simp [SliceQueue.IsEmpty, SliceQueue.Size] at he
      omega
    rw [if_neg (by simp [he])]
    rw [List.get?_eq_getElem?, List.getElem?_eq_getElem hlt]
    rfl

theorem StackPeek_spec {α : Type} (s : SliceStack α) (hw : s.WF) :
    s.Peek.isSome = true := by
  unfold SliceStack.Peek
  by_cases he : s.IsEmpty = true
  · simp [he]
  · have hlt : s.curr - 1 < s.data.elems.length := by
      have h1 := hw.1
      simp [SliceStack.IsEmpty] at he
      omega
    rw [if_neg (by simp [he])]
    rw [List.get?_eq_getElem?, List.getElem?_eq_getElem hlt]
    rfl

/-- C5 counterexample: the reachable queue state with buffer [1..6],
cursor 1, CompactOnEnqueue enabled, MinOptimizationLength 2 and
CompactWastePercent 10 satisfies the claim's trigger condition
(live_count 5 ≥ 2 and waste 100 − 100·5/6 = 17 ≥ 10), so the claim demands
the compacting shift (cursor reset to 0, stale slot dropped), yet Enqueue
leaves the cursor at 1 and the stale element in the buffer: the code
gates on curr ≥ MinOptimizationLength and 100·live < CWP·len instead. -/
theorem enqueue_trigger_counterexample :
    ((2 : Int) ≤ ((5 : Nat) : Int)) ∧
    ((10 : Int) ≤ ((100 - 100 * 5 / 6 : Nat) : Int)) ∧
    (SliceQueue.Enqueue ⟨1, ⟨[1, 2, 3, 4, 5, 6], 6⟩, ⟨true, false, 2, 10, 75⟩⟩
        (7 : Nat)).map (fun q => (q.curr, q.data.elems)) =
      some (1, [1, 2, 3, 4, 5, 6, 7]) := by decide

/-- C5 (amended): with CompactOnEnqueue enabled (and a cursor inside the
buffer, true of every reachable state), Enqueue performs the compacting
shift exactly when curr ≥ MinOptimizationLength and
100·live_count < CompactWastePercent·len(data); in all cases the value is
then appended at the buffer tail. -/
theorem enqueue_spec_amended {α : Type} (q : SliceQueue α) (v : α)
    (hc : q.config.CompactOnEnqueue = true)
    (h : q.curr ≤ q.data.elems.length) :
    q.Enqueue v = some (
      if q.config.MinOptimizationLength ≤ (q.curr : Int) ∧
          100 * ((q.data.elems.length : Int) - (q.curr : Int)) <
            q.config.CompactWastePercent * (q.data.elems.length : Int)
      then ⟨0, goAppend ⟨q.data.elems.drop q.curr, q.data.cap⟩ v, q.config⟩
      else ⟨q.curr, goAppend q.data v, q.config⟩) := by
  unfold SliceQueue.Enqueue
  by_cases hopt : q.config.MinOptimizationLength ≤ (q.curr : Int) ∧
      100 * ((q.data.elems.length : Int) - (q.curr : Int)) <
        q.config.CompactWastePercent * (q.data.elems.length : Int)
  · rw [if_pos ⟨hc, hopt.1, hopt.2⟩, if_pos h, if_pos hopt]
  · rw [if_neg (fun hcode => hopt ⟨hcode.2.1, hcode.2.2⟩), if_neg hopt]

/-- Witness for C5 (amended) at a concrete state. -/
theorem enqueue_spec_amended_witness :
    SliceQueue.Enqueue ⟨1, ⟨[1, 2, 3, 4, 5, 6], 6⟩, ⟨true, false, 2, 10, 75⟩⟩
        (7 : Nat) =
      some ⟨1, ⟨[1, 2, 3, 4, 5, 6, 7], 12⟩, ⟨true, false, 2, 10, 75⟩⟩ := by
  have h := enqueue_spec_amended
    ⟨1, ⟨[1, 2, 3, 4, 5, 6], 6⟩, ⟨true, false, 2, 10, 75⟩⟩ (7 : Nat)
    (by decide) (by decide)
  rw [h]; decide

/-- C6 counterexample: the queue built from values 0..12 with
ReallocateOnDequeue enabled, MinOptimizationLength 1 and
ReallocateWastePercent 0 dequeues 0 and adopts a buffer of capacity
2·12 = 24, while the Reallocation Policy's target-capacity formula yields
max(12·100/(100 − 0·wb/100), 10) = 12 for EVERY waste_buffer value: the
dequeue optimization is the inline doubling rule, not the policy. -/
theorem dequeue_policy_counterexample :
    ((NewSliceQueueWithConfig ⟨false, true, 1, 50, 0⟩
        ([0, 1, 2, 3, 4, 5, 6, 7, 8, 9, 10, 11, 12] : List Nat)).Dequeue).map
      (fun r => (r.2.curr, r.2.data.elems.length, r.2.data.cap)) =
      some (0, 12, 24) ∧
    ∀ wb : Nat, max (12 * 100 / (100 - 0 * wb / 100)) 10 ≠ 24 := by
  refine ⟨by decide, fun wb => ?_⟩
  simp only [Nat.zero_mul, Nat.zero_div]
  decide

/-- C6 (amended): with ReallocateOnDequeue enabled, the optimization step
of a successful Dequeue triggers exactly when the incremented cursor is
≥ MinOptimizationLength and 100·live < (100 − ReallocateWastePercent)·cap;
on trigger the queue adopts a fresh buffer holding the remaining live
elements at the front with cursor 0 and capacity max(2·live, 10) — an
inline rule, not an invocation of the Reallocate policy. -/
theorem dequeue_spec_amended {α : Type} (q : SliceQueue α)
    (hr : q.config.ReallocateOnDequeue = true)
    (h : q.curr < q.data.elems.length) :
    ∃ v, q.data.elems.get? q.curr = some v ∧
      q.Dequeue = some (Except.ok v,
        if q.config.MinOptimizationLength ≤ ((q.curr + 1 : Nat) : Int) ∧
            100 * ((q.data.elems.length : Int) - ((q.curr + 1 : Nat) : Int)) <
              (100 - q.config.ReallocateWastePercent) * (q.data.cap : Int)
        then ⟨0, ⟨q.data.elems.drop (q.curr + 1),
            max (2 * (q.data.elems.drop (q.curr + 1)).length) 10⟩, q.config⟩
        else ⟨q.curr + 1, q.data, q.config⟩) := by
  have hget : q.data.elems.get? q.curr = some (q.data.elems.get ⟨q.curr, h⟩) := by
    rw [List.get?_eq_getElem?, List.getElem?_eq_getElem h]
    rfl
  refine ⟨_, hget, ?_⟩
  have hne : q.IsEmpty = false := by
    simp [SliceQueue.IsEmpty, SliceQueue.Size]; omega
  unfold SliceQueue.Dequeue
  rw [hne]; simp only [Bool.false_eq_true, if_false, hget]
  by_cases hopt : q.config.MinOptimizationLength ≤ ((q.curr + 1 : Nat) : Int) ∧
      100 * ((q.data.elems.length : Int) - ((q.curr + 1 : Nat) : Int)) <
        (100 - q.config.ReallocateWastePercent) * (q.data.cap : Int)
  · rw [if_pos ⟨hr, hopt.1, hopt.2⟩, if_pos hopt]
  · rw [if_neg (fun hcode => hopt ⟨hcode.2.1, hcode.2.2⟩), if_neg hopt]

/-- Witness for C6 (amended) at a concrete state. -/
theorem dequeue_spec_amended_witness :
    SliceQueue.Dequeue ⟨0, ⟨[5, 6], 2⟩, ⟨false, true, 1, 50, 75⟩⟩ =
      some (Except.ok (5 : Nat), ⟨1, ⟨[5, 6], 2⟩, ⟨false, true, 1, 50, 75⟩⟩) := by
  obtain ⟨v, hv, hd⟩ := dequeue_spec_amended
    (⟨0, ⟨[5, 6], 2⟩, ⟨false, true, 1, 50, 75⟩⟩ : SliceQueue Nat)
    (by decide) (by decide)
  have hv5 : v = 5 := by
    have h5 := (by simpa using hv : 5 = v)
    omega
  subst hv5
  rw [hd]; decide

/-- C7: NewSliceQueue enqueues its argument values in order, but its
actual default configuration in slice_queue.go is CompactOnEnqueue true,
ReallocateOnDequeue FALSE, MinOptimizationLength 100, CompactWastePercent
50, ReallocateWastePercent 75 — contradicting the claim (and the package's
own documentation), which says both optimizations are enabled. -/
theorem newSliceQueue_defaults {α : Type} (values : List α) :
    (NewSliceQueue values).toList = values ∧
    (NewSliceQueue values).config =
      { CompactOnEnqueue := true
        ReallocateOnDequeue := false
        MinOptimizationLength := 100
        CompactWastePercent := 50
        ReallocateWastePercent := 75 } := by
  exact ⟨by simp [NewSliceQueue, NewSliceQueueWithConfig, SliceQueue.toList], rfl⟩

/-- C8: on a container with zero live elements, Dequeue and Peek return
the error "queue is empty", Pop and Peek return "stack is empty", and the
receiver's buffer and cursor are unchanged on the error path. -/
theorem empty_container_errors {α : Type} (q : SliceQueue α) (s : SliceStack α)
    (hq : q.Size = 0) (hs : s.curr = 0) :
    q.Dequeue = some (Except.error ErrorEmptyQueue, q) ∧
    q.Peek = some (Except.error ErrorEmptyQueue) ∧
    s.Pop = some (Except.error ErrorEmptyStack, s) ∧
    s.Peek = some (Except.error ErrorEmptyStack) ∧
    ErrorEmptyQueue = "queue is empty" ∧ ErrorEmptyStack = "stack is empty" := by
  have hq1 : q.IsEmpty = true := by simp [SliceQueue.IsEmpty, hq]
  have hs1 : s.IsEmpty = true := by simp [SliceStack.IsEmpty, hs]
  refine ⟨Dequeue_empty q hq1, ?_, Pop_empty s hs1, ?_, rfl, rfl⟩
  · unfold SliceQueue.Peek; simp [hq1]
  · unfold SliceStack.Peek; simp [hs1]

/-- Witness for C8 on concrete empty containers. -/
theorem empty_container_errors_witness :
    (NewSliceQueue ([] : List Nat)).Dequeue =
      some (Except.error ErrorEmptyQueue, NewSliceQueue []) ∧
    (NewSliceQueue ([] : List Nat)).Peek = some (Except.error ErrorEmptyQueue) ∧
    (NewSliceStack ([] : List Nat)).Pop =
      some (Except.error ErrorEmptyStack, NewSliceStack []) ∧
    (NewSliceStack ([] : List Nat)).Peek = some (Except.error ErrorEmptyStack) ∧
    ErrorEmptyQueue = "queue is empty" ∧ ErrorEmptyStack = "stack is empty" :=
  empty_container_errors (NewSliceQueue []) (NewSliceStack [])
    (by decide) (by decide)

/-- C9: Compact and Reallocate panic exactly when their parameters are
malformed in the documented sense; with parameters in range neither
panics (the pure model makes "validation before mutation" implicit). -/
theorem policy_validation_iff {α : Type} (data dataR : GoSlice α)
    (p : SliceCompactionParams) (r : SliceReallocationParams) :
    (Compact data p = none ↔
      ¬ (0 ≤ p.UsedStart ∧
          (0 < data.elems.length → p.UsedStart < (data.elems.length : Int)) ∧
          (data.elems.length = 0 → p.UsedStart = 0) ∧
          0 ≤ p.MinSize ∧ 0 ≤ p.WastePercent ∧ p.WastePercent ≤ 100)) ∧
    (Reallocate dataR r = none ↔
      ¬ (0 ≤ r.UsedStart ∧ 0 ≤ r.UsedEnd ∧
          (0 < dataR.elems.length →
            r.UsedStart < r.UsedEnd ∧ r.UsedEnd ≤ (dataR.elems.length : Int)) ∧
          (dataR.elems.length = 0 → r.UsedStart = 0 ∧ r.UsedEnd = 0) ∧
          0 ≤ r.MinSize ∧ 0 ≤ r.WastePercent ∧ r.WastePercent ≤ 100 ∧
          0 ≤ r.WasteBuffer ∧ r.WasteBuffer ≤ 99)) := by
  constructor
  · refine (Compact_none_iff data p).trans ?_
    refine Bool.eq_false_iff.trans ?_
    exact not_congr (compact_validate_iff p data.elems.length)
  · refine (Reallocate_none_iff dataR r).trans ?_
    refine Bool.eq_false_iff.trans ?_
    exact not_congr (realloc_validate_iff r dataR.elems.length)

/-- C10: construction and every queue operation preserve the
well-formedness invariant curr ≤ len(data) ≤ cap(data), Size is
non-negative, and no operation hits an out-of-range buffer access (every
call returns `some`, i.e. never the modelled panic); likewise for the
stack, whose Pop additionally needs its configuration in the documented
ranges to pass the Reallocate policy's validation. -/
theorem container_wf_preservation {α : Type} (config : SliceQueueConfig)
    (sconfig : SliceStackConfig) (values : List α) (v : α)
    (q : SliceQueue α) (s : SliceStack α) (hq : q.WF) (hs : s.WF)
    (hm : 0 ≤ s.config.MinOptimizationLength)
    (hwp : 0 ≤ s.config.ReallocateWastePercent)
    (hwp2 : s.config.ReallocateWastePercent ≤ 100)
    (hwb : 0 ≤ s.config.ReallocateWasteBuffer)
    (hwb2 : s.config.ReallocateWasteBuffer ≤ 99) :
    (NewSliceQueueWithConfig config values).WF ∧
    (∃ q', q.Enqueue v = some q' ∧ q'.WF) ∧
    (∃ r, q.Dequeue = some r ∧ r.2.WF) ∧
    q.Peek.isSome = true ∧
    0 ≤ q.Size ∧
    (NewSliceStackWithConfig sconfig values).WF ∧
    (∃ s', s.Push v = some s' ∧ s'.WF) ∧
    (∃ r, s.Pop = some r ∧ r.2.WF) ∧
    s.Peek.isSome = true := by
  refine ⟨⟨by simp [NewSliceQueueWithConfig], by simp [NewSliceQueueWithConfig]⟩,
    ?_, ?_, QueuePeek_spec q hq, ?_,
    ⟨by simp [NewSliceStackWithConfig], by simp [NewSliceStackWithConfig]⟩,
    ?_, ?_, StackPeek_spec s hs⟩
  · obtain ⟨q', h1, _, h3, _⟩ := Enqueue_spec q v hq.1
    exact ⟨q', h1, h3⟩
  · rcases htl : q.toList with _ | ⟨v', l⟩
    · have hemp : q.IsEmpty = true := by
        have h1 := hq.1
        have h2 : q.data.elems.length - q.curr = 0 := by
          have h3 := congrArg List.length htl
          simpa [SliceQueue.toList] using h3
        simp [SliceQueue.IsEmpty, SliceQueue.Size]
        omega
      exact ⟨_, Dequeue_empty q hemp, hq⟩
    · obtain ⟨q', h1, _, h3, _⟩ := Dequeue_spec q v' l hq htl
      exact ⟨_, h1, h3⟩
  · have h1 := hq.1
    unfold SliceQueue.Size
    omega
  · obtain ⟨s', h1, _, h3, _⟩ := Push_spec s v hs
    exact ⟨s', h1, h3⟩
  · by_cases hc : s.curr = 0
    · have hemp : s.IsEmpty = true := by simp [SliceStack.IsEmpty, hc]
      exact ⟨_, Pop_empty s hemp, hs⟩
    · have hlen : s.toList.length = s.curr := by
        have h1 := hs.1
        simp only [SliceStack.toList, List.length_take]
        omega
      rcases List.eq_nil_or_concat s.toList with hnil | ⟨l, v', hlv⟩
      · rw [hnil] at hlen
        exact absurd hlen.symm hc
      · rw [List.concat_eq_append] at hlv
        obtain ⟨s', h1, _, h3, _⟩ := Pop_spec s v' l hs hm hwp hwp2 hwb hwb2 hlv
        exact ⟨_, h1, h3⟩

/-- Witness for C10 on concrete two-element containers. -/
theorem container_wf_preservation_witness :
    (NewSliceQueueWithConfig ⟨true, true, 100, 50, 75⟩ ([1, 2] : List Nat)).WF ∧
    (∃ q', (NewSliceQueueWithConfig ⟨true, true, 100, 50, 75⟩
      ([1, 2] : List Nat)).Enqueue 3 = some q' ∧ q'.WF) ∧
    (∃ r, (NewSliceQueueWithConfig ⟨true, true, 100, 50, 75⟩
      ([1, 2] : List Nat)).Dequeue = some r ∧ r.2.WF) ∧
    (NewSliceQueueWithConfig ⟨true, true, 100, 50, 75⟩
      ([1, 2] : List Nat)).Peek.isSome = true ∧
    0 ≤ (NewSliceQueueWithConfig ⟨true, true, 100, 50, 75⟩
      ([1, 2] : List Nat)).Size ∧
    (NewSliceStackWithConfig ⟨true, 100, 75, 80⟩ ([1, 2] : List Nat)).WF ∧
    (∃ s', (NewSliceStackWithConfig ⟨true, 100, 75, 80⟩
      ([1, 2] : List Nat)).Push 3 = some s' ∧ s'.WF) ∧
    (∃ r, (NewSliceStackWithConfig ⟨true, 100, 75, 80⟩
      ([1, 2] : List Nat)).Pop = some r ∧ r.2.WF) ∧
    (NewSliceStackWithConfig ⟨true, 100, 75, 80⟩
      ([1, 2] : List Nat)).Peek.isSome = true :=
  container_wf_preservation ⟨true, true, 100, 50, 75⟩ ⟨true, 100, 75, 80⟩
    [1, 2] 3
    (NewSliceQueueWithConfig ⟨true, true, 100, 50, 75⟩ [1, 2])
    (NewSliceStackWithConfig ⟨true, 100, 75, 80⟩ [1, 2])
    (by decide) (by decide) (by decide) (by decide) (by decide) (by decide)
    (by decide)

end GoDS
